import Mathlib

/-!
# Verification of the dc_federated worker manager

Shallow embedding of `src/dc_federated/backend/_worker_manager.py`
(class `WorkerManager`).  Python dicts are insertion-ordered association
lists, Python lists are Lean lists, exceptions escaping a function are
`Option`-valued results (`none` = the call raises), and the Ed25519
signature check performed by the PyNaCl library is abstracted by a
boolean oracle `sigOk` passed to the operations that use it.  The
nondeterministic timestamp digest used by `generate_id_for_worker` in
unauthenticated mode is passed in as an explicit argument `ts`.
-/

/-- Modelled from the spec: the INVALID sentinel identity
(`INVALID_WORKER` from the constants module, which is not part of the
provided sources; the spec only requires a fixed sentinel string). -/
def INVALID_WORKER : String := "invalid_worker_sentinel"

/-- Modelled from the spec: the two authentication reason codes
(`AUTHENTICATED` and `NO_AUTHENTICATION` from the constants module,
which is not part of the provided sources). -/
inductive AuthStatus where
  | authenticated : AuthStatus
  | no_authentication : AuthStatus
deriving Repr, DecidableEq

/-- Modelled from the spec: the diagnostic message builder
`message_seriously_wrong` from `backend_utils` (not part of the provided
sources); the spec only requires a diagnostic error string. -/
def message_seriously_wrong (m : String) : String :=
  "Something has gone seriously wrong on the server: " ++ m

/-- A hex digit as accepted by `binascii.unhexlify`, which is what
`nacl.encoding.HexEncoder.decode` is. -/
def isHexChar (c : Char) : Bool :=
  c.isDigit || (c ≥ 'a' && c ≤ 'f') || (c ≥ 'A' && c ≤ 'F')

/-- A string `binascii.unhexlify` decodes without raising: hex digits
only, even length. -/
def isHexStr (s : String) : Bool :=
  s.data.all isHexChar && s.length % 2 == 0

/-- Successful construction of `nacl.signing.VerifyKey` from a hex
string: valid hex that decodes to exactly 32 bytes (64 hex digits). -/
def validVerifyKey (s : String) : Bool :=
  isHexStr s && s.length == 64

/-- Association-list lookup with decidable string equality: Python
`d[k]` / `k in d` on a dict represented as an insertion-ordered list. -/
def alookup (d : List (String × Bool)) (a : String) : Option Bool :=
  match d with
  | [] => none
  | (k, v) :: es => if a = k then some v else alookup es a

/-- Python dict assignment `d[k] = v` on an insertion-ordered
association list: overwrite in place when the key is present (a dict
holds each key once), append otherwise. -/
def dictSet (d : List (String × Bool)) (k : String) (v : Bool) : List (String × Bool) :=
  match d with
  | [] => [(k, v)]
  | (k0, v0) :: es => if k0 = k then (k, v) :: es else (k0, v0) :: dictSet es k v

/-- Python `list.remove`: drop the first occurrence (call sites in the
source only invoke it on present elements). -/
def removeFirst (l : List String) (a : String) : List String :=
  match l with
  | [] => []
  | x :: xs => if x = a then xs else x :: removeFirst xs a

/-- The state of a `WorkerManager` object: its four instance fields.
`public_keys` keeps only the dict keys, since the stored `VerifyKey`
value is determined by the key text. -/
structure WorkerManager where
  do_public_key_auth : Bool
  public_keys : List String
  allowed_workers : List String
  registered_workers : List (String × Bool)
deriving Repr, DecidableEq

/-- `WorkerManager.add_public_key` (lines 209-235): no-op returning true
without authentication; re-adding is a no-op returning true; otherwise
the `VerifyKey` constructor decides success. -/
def add_public_key (wm : WorkerManager) (public_key_str : String) : Bool × WorkerManager :=
  if wm.do_public_key_auth = false then (true, wm)
  else if public_key_str ∈ wm.public_keys then (true, wm)
  else if validVerifyKey public_key_str then
    (true, { wm with public_keys := wm.public_keys ++ [public_key_str] })
  else (false, wm)

/-- `WorkerManager.delete_public_key` (lines 237-263): returns true both
when the key was present (and is deleted) and when it was absent. -/
def delete_public_key (wm : WorkerManager) (public_key_str : String) : Bool × WorkerManager :=
  if wm.do_public_key_auth = false then (true, wm)
  else if public_key_str ∈ wm.public_keys then
    (true, { wm with public_keys := removeFirst wm.public_keys public_key_str })
  else (true, wm)

/-- `WorkerManager.generate_id_for_worker` (lines 277-300).  `ts` stands
for `sha224(str(time.time())).hexdigest()`, the timestamp digest
supplied by the environment at the moment of the call. -/
def generate_id_for_worker (wm : WorkerManager) (public_key_str ts : String) : String :=
  if wm.do_public_key_auth then public_key_str else ts ++ "_unauthenticated"

/-- The value returned by `_add_worker`, with the internal
consistency-fault branch (lines 139-142) kept distinguishable from the
ordinary `(worker_id, bool)` returns. -/
inductive AddResult where
  | fault : String → AddResult
  | ret : String → Bool → AddResult
deriving Repr, DecidableEq

/-- The concrete Python pair an `AddResult` stands for. -/
def AddResult.toPair : AddResult → String × Bool
  | AddResult.fault m => (m, false)
  | AddResult.ret i b => (i, b)

/-- `WorkerManager._add_worker` (lines 122-152). -/
def _add_worker (wm : WorkerManager) (public_key_str ts : String) : AddResult × WorkerManager :=
  let worker_id := generate_id_for_worker wm public_key_str ts
  if wm.do_public_key_auth = true ∧ public_key_str ∉ wm.public_keys then
    (AddResult.fault (message_seriously_wrong ("trying to add worker without adding worker first")), wm)
  else if worker_id ∉ wm.allowed_workers then
    (AddResult.ret worker_id true,
      { wm with allowed_workers := wm.allowed_workers ++ [worker_id],
                registered_workers := dictSet wm.registered_workers worker_id false })
  else (AddResult.ret worker_id false, wm)

/-- `WorkerManager.add_worker` (lines 100-120), with the return value
kept as an `AddResult`. -/
def add_worker_res (wm : WorkerManager) (public_key_str ts : String) : AddResult × WorkerManager :=
  if wm.do_public_key_auth then
    let r := add_public_key wm public_key_str
    if r.1 then _add_worker r.2 public_key_str ts
    else (AddResult.ret INVALID_WORKER false, r.2)
  else _add_worker wm public_key_str ts

/-- `WorkerManager.add_worker` returning the Python pair. -/
def add_worker (wm : WorkerManager) (public_key_str ts : String) : (String × Bool) × WorkerManager :=
  ((add_worker_res wm public_key_str ts).1.toPair, (add_worker_res wm public_key_str ts).2)

/-- `WorkerManager.set_registration_status` (lines 154-181).  The read
`self.registered_workers[worker_id]` raises `KeyError` when the entry is
absent, before any mutation: that is the `none` result. -/
def set_registration_status (wm : WorkerManager) (worker_id : String) (should_register : Bool) :
    Option ((String × Bool) × WorkerManager) :=
  if worker_id ∈ wm.allowed_workers then
    match alookup wm.registered_workers worker_id with
    | none => none
    | some _ => some ((worker_id, true),
        { wm with registered_workers := dictSet wm.registered_workers worker_id should_register })
  else some ((INVALID_WORKER, false), wm)

/-- `WorkerManager.remove_worker` (lines 183-207): removes the identity
from `allowed_workers`, deletes its public key, and leaves
`registered_workers` untouched. -/
def remove_worker (wm : WorkerManager) (worker_id : String) : (String × Bool) × WorkerManager :=
  if worker_id ∈ wm.allowed_workers then
    ((worker_id, true),
      (delete_public_key { wm with allowed_workers := removeFirst wm.allowed_workers worker_id }
        worker_id).2)
  else ((INVALID_WORKER, false), wm)

/-- `WorkerManager.authenticate_worker` (lines 302-340).  `sigOk k m`
abstracts a successful `VerifyKey.verify` of the hex message `m` against
the key stored for `k`; a hex-decoding failure of `signed_message`
raises `binascii.Error`, which the `except BadSignatureError` clause
does not catch, so the call raises (`none`). -/
def authenticate_worker (sigOk : String → String → Bool) (wm : WorkerManager)
    (public_key_str signed_message : String) : Option (Bool × AuthStatus) :=
  if wm.do_public_key_auth = false then some (true, AuthStatus.no_authentication)
  else if public_key_str ∉ wm.public_keys then some (false, AuthStatus.authenticated)
  else if isHexStr signed_message = false then none
  else if sigOk public_key_str signed_message then some (true, AuthStatus.authenticated)
  else some (false, AuthStatus.authenticated)

/-- `WorkerManager.authenticate_and_add_worker` (lines 74-98). -/
def authenticate_and_add_worker (sigOk : String → String → Bool) (wm : WorkerManager)
    (public_key_str signed_phrase ts : String) : Option ((String × Bool) × WorkerManager) :=
  match authenticate_worker sigOk wm public_key_str signed_phrase with
  | none => none
  | some (true, _) =>
    let r := _add_worker wm public_key_str ts
    set_registration_status r.2 r.1.toPair.1 true
  | some (false, _) => some ((INVALID_WORKER, false), wm)

/-- `WorkerManager.is_worker_allowed` (lines 356-366). -/
def is_worker_allowed (wm : WorkerManager) (worker_id : String) : Bool :=
  decide (worker_id ∈ wm.allowed_workers)

/-- `WorkerManager.is_worker_registered` (lines 368-378):
`worker_id in registered_workers and registered_workers[worker_id]`. -/
def is_worker_registered (wm : WorkerManager) (worker_id : String) : Bool :=
  (alookup wm.registered_workers worker_id).getD false

/-- `WorkerManager.get_worker_list` (lines 342-354): the entries of the
`registered_workers` dict in iteration (= insertion) order. -/
def get_worker_list (wm : WorkerManager) : List (String × Bool) :=
  wm.registered_workers

/-- `WorkerManager.get_keys` (lines 265-275). -/
def get_keys (wm : WorkerManager) : List String :=
  wm.public_keys

/-- One iteration of the constructor key-list loop (lines 68-72):
`if self.add_public_key(key): self.add_worker(key)`. -/
def initKeyStep (wm : WorkerManager) (key : String) : WorkerManager :=
  let r := add_public_key wm key
  if r.1 then (add_worker r.2 key ("")).2 else r.2

/-- `WorkerManager.__init__` (lines 44-72).  The key-list file is given
as its list of lines; `none` as the overall result is the `ValueError`
raised for the contradictory configuration. -/
def WorkerManager.init (server_mode_safe : Bool) (key_list : Option (List String)) :
    Option WorkerManager :=
  if server_mode_safe = false then
    match key_list with
    | some _ => none
    | none => some ⟨false, [], [], []⟩
  else
    match key_list with
    | none => some ⟨true, [], [], []⟩
    | some lines => some (lines.foldl initKeyStep ⟨true, [], [], []⟩)

/-- The public mutating operations of the registry, each tagged with the
environment inputs (timestamp digest, signed message) it consumes. -/
inductive Op where
  | opAddWorker : String → String → Op
  | opRemoveWorker : String → Op
  | opSetStatus : String → Bool → Op
  | opAuthAdd : String → String → String → Op
  | opAddKey : String → Op
  | opRemoveKey : String → Op
deriving Repr, DecidableEq

/-- The state a `set_registration_status` call leaves the object in:
unchanged when the call raises (`KeyError` occurs before mutation). -/
def setStatusState (wm : WorkerManager) (worker_id : String) (should_register : Bool) :
    WorkerManager :=
  match set_registration_status wm worker_id should_register with
  | some r => r.2
  | none => wm

/-- The state an `authenticate_and_add_worker` call leaves the object
in: when `set_registration_status` raises, `_add_worker` has already
mutated the state. -/
def authAddState (sigOk : String → String → Bool) (wm : WorkerManager)
    (public_key_str signed_phrase ts : String) : WorkerManager :=
  match authenticate_worker sigOk wm public_key_str signed_phrase with
  | none => wm
  | some (false, _) => wm
  | some (true, _) =>
    setStatusState (_add_worker wm public_key_str ts).2
      ((_add_worker wm public_key_str ts).1.toPair.1) true

/-- The state after one public operation.  For the two operations that
can raise, the state is the one the Python object is left in when the
exception propagates. -/
def applyOp (sigOk : String → String → Bool) (wm : WorkerManager) : Op → WorkerManager
  | Op.opAddWorker k ts => (add_worker wm k ts).2
  | Op.opRemoveWorker i => (remove_worker wm i).2
  | Op.opSetStatus i b => setStatusState wm i b
  | Op.opAuthAdd k msg ts => authAddState sigOk wm k msg ts
  | Op.opAddKey k => (add_public_key wm k).2
  | Op.opRemoveKey k => (delete_public_key wm k).2

/-- States reachable from some construction by public operations all
satisfying `P`. -/
inductive ReachableVia (sigOk : String → String → Bool) (P : Op → Prop) : WorkerManager → Prop where
  | init : ∀ (safe : Bool) (key_list : Option (List String)) (wm : WorkerManager),
      WorkerManager.init safe key_list = some wm → ReachableVia sigOk P wm
  | step : ∀ (wm : WorkerManager) (op : Op),
      ReachableVia sigOk P wm → P op → ReachableVia sigOk P (applyOp sigOk wm op)

/-- States reachable by arbitrary public operations. -/
def Reachable (sigOk : String → String → Bool) (wm : WorkerManager) : Prop :=
  ReachableVia sigOk (fun _ => True) wm

/-- Operation is not `remove_worker`. -/
def noRemoveWorkerOp (op : Op) : Prop := ∀ i, op ≠ Op.opRemoveWorker i

/-- Operation is not a direct `delete_public_key`. -/
def noRemoveKeyOp (op : Op) : Prop := ∀ k, op ≠ Op.opRemoveKey k

/-- Every allowed identity has a `registered_workers` entry (the
inclusion of claim C10). -/
def InvStatusForAllowed (wm : WorkerManager) : Prop :=
  ∀ i ∈ wm.allowed_workers, (alookup wm.registered_workers i).isSome = true

/-- Every `registered_workers` key is allowed (the inclusion I2 of
claim C2). -/
def InvStatusOnlyAllowed (wm : WorkerManager) : Prop :=
  ∀ i, (alookup wm.registered_workers i).isSome = true → i ∈ wm.allowed_workers

/-- In safe mode every allowed identity has a stored public key whose
text is that identity (invariant I1 of claim C5). -/
def InvKeyForAllowed (wm : WorkerManager) : Prop :=
  wm.do_public_key_auth = true → ∀ i ∈ wm.allowed_workers, i ∈ wm.public_keys

/-- The allowed list never holds duplicates. -/
def InvNodupAllowed (wm : WorkerManager) : Prop := wm.allowed_workers.Nodup

/-- The structural invariants every operation preserves. -/
def BaseInv (wm : WorkerManager) : Prop := InvNodupAllowed wm ∧ InvStatusForAllowed wm

/-- A 64-hex-digit key text used for concrete executions. -/
def K64 : String := "aaaaaaaaaaaaaaaaaaaaaaaaaaaaaaaaaaaaaaaaaaaaaaaaaaaaaaaaaaaaaaaa"

/-- A second 64-hex-digit key text. -/
def K64b : String := "bbbbbbbbbbbbbbbbbbbbbbbbbbbbbbbbbbbbbbbbbbbbbbbbbbbbbbbbbbbbbbbb"

/-- A signature oracle that accepts everything. -/
def sigAll : String → String → Bool := fun _ _ => true

/-- A signature oracle that rejects everything. -/
def sigNone : String → String → Bool := fun _ _ => false

/-- The empty safe-mode state, as built by `__init__(True, None)`. -/
def wmSafe0 : WorkerManager := ⟨true, [], [], []⟩

/-- The safe-mode state after `add_worker(K64)` on the empty state. -/
def wmS1 : WorkerManager := (add_worker wmSafe0 K64 ("")).2

/-- `wmS1` after `set_registration_status(K64, True)`. -/
def wmS2 : WorkerManager := setStatusState wmS1 K64 true

/-- `wmS1` after `remove_worker(K64)`. -/
def wmS3 : WorkerManager := (remove_worker wmS1 K64).2

/-- `wmS1` after a direct `delete_public_key(K64)`. -/
def wmS4 : WorkerManager := (delete_public_key wmS1 K64).2

/-- The characteristic equation of Python dict assignment. -/
theorem alookup_dictSet (d : List (String × Bool)) (k : String) (v : Bool) (a : String) :
    alookup (dictSet d k v) a = if a = k then some v else alookup d a := by
  induction d with
  | nil =>
    by_cases hak : a = k <;> simp [dictSet, alookup, hak]
  | cons p es ih =>
    obtain ⟨k0, v0⟩ := p
    by_cases hk : k0 = k
    · subst hk
      by_cases hak : a = k0 <;> simp [dictSet, alookup, hak]
    · by_cases hak : a = k0
      · subst hak
        simp [dictSet, alookup, hk]
      · simp [dictSet, alookup, hk, hak, ih]

/-- An element of `removeFirst l b` was an element of `l`. -/
theorem mem_removeFirst (l : List String) (a b : String) (h : a ∈ removeFirst l b) : a ∈ l := by
  induction l with
  | nil => simp [removeFirst] at h
  | cons x xs ih =>
    by_cases hx : x = b
    · simp [removeFirst, hx] at h
      simp [h]
    · simp [removeFirst, hx] at h
      rcases h with h | h
      · simp [h]
      · simp [ih h]

/-- Removing one element keeps every other element. -/
theorem mem_removeFirst_of_ne (l : List String) (a b : String) (hne : a ≠ b) (h : a ∈ l) :
    a ∈ removeFirst l b := by
  induction l with
  | nil => simp at h
  | cons x xs ih =>
    by_cases hx : x = b
    · subst hx
      simp [removeFirst]
      rcases List.mem_cons.mp h with h | h
      · exact absurd h hne
      · exact h
    · simp [removeFirst, hx]
      rcases List.mem_cons.mp h with h | h
      · exact Or.inl h
      · exact Or.inr (ih h)

/-- `removeFirst` preserves `Nodup`. -/
theorem nodup_removeFirst (l : List String) (a : String) (h : l.Nodup) :
    (removeFirst l a).Nodup := by
  induction l with
  | nil => simp [removeFirst]
  | cons x xs ih =>
    rcases List.nodup_cons.mp h with ⟨hx, hxs⟩
    by_cases hxa : x = a
    · simpa [removeFirst, hxa] using hxs
    · rw [show removeFirst (x :: xs) a = x :: removeFirst xs a from by simp [removeFirst, hxa]]
      exact List.nodup_cons.mpr ⟨fun hmem => hx (mem_removeFirst xs x a hmem), ih hxs⟩

/-- On a duplicate-free list, `removeFirst` really removes the element. -/
theorem not_mem_removeFirst (l : List String) (a : String) (h : l.Nodup) :
    a ∉ removeFirst l a := by
  induction l with
  | nil => simp [removeFirst]
  | cons x xs ih =>
    rcases List.nodup_cons.mp h with ⟨hx, hxs⟩
    by_cases hxa : x = a
    · subst hxa
      simpa [removeFirst] using hx
    · simp [removeFirst, hxa]
      exact ⟨fun he => hxa he.symm, ih hxs⟩

/-- `add_public_key` never changes the mode flag. -/
theorem add_public_key_auth (wm : WorkerManager) (k : String) :
    ((add_public_key wm k).2).do_public_key_auth = wm.do_public_key_auth := by
  unfold add_public_key
  split_ifs <;> rfl

/-- `add_public_key` never changes the allowed list. -/
theorem add_public_key_allowed (wm : WorkerManager) (k : String) :
    ((add_public_key wm k).2).allowed_workers = wm.allowed_workers := by
  unfold add_public_key
  split_ifs <;> rfl

/-- `add_public_key` never changes the registration map. -/
theorem add_public_key_registered (wm : WorkerManager) (k : String) :
    ((add_public_key wm k).2).registered_workers = wm.registered_workers := by
  unfold add_public_key
  split_ifs <;> rfl

/-- `add_public_key` only ever grows the key store. -/
theorem add_public_key_keys_mono (wm : WorkerManager) (k a : String)
    (h : a ∈ wm.public_keys) : a ∈ ((add_public_key wm k).2).public_keys := by
  unfold add_public_key
  split_ifs <;> simp [h]

/-- A successful `add_public_key` in safe mode leaves the key stored. -/
theorem add_public_key_ok_mem (wm : WorkerManager) (k : String)
    (hauth : wm.do_public_key_auth = true) (hok : (add_public_key wm k).1 = true) :
    k ∈ ((add_public_key wm k).2).public_keys := by
  unfold add_public_key at hok ⊢
  split_ifs at hok ⊢ with h1 h2 h3
  · rw [hauth] at h1
    cases h1
  · exact h2
  · simp

/-- A failed `add_public_key` leaves the state untouched. -/
theorem add_public_key_fail_state (wm : WorkerManager) (k : String)
    (hok : (add_public_key wm k).1 = false) : (add_public_key wm k).2 = wm := by
  unfold add_public_key at hok ⊢
  split_ifs at hok ⊢
  rfl

/-- Everything in the key store after `add_public_key` was there before,
except possibly `k` itself. -/
theorem add_public_key_keys_sub (wm : WorkerManager) (k a : String)
    (h : a ∈ ((add_public_key wm k).2).public_keys) : a ∈ wm.public_keys ∨ a = k := by
  unfold add_public_key at h
  split_ifs at h <;> simp at h <;> tauto

/-- `delete_public_key` never changes the mode flag. -/
theorem delete_public_key_auth (wm : WorkerManager) (k : String) :
    ((delete_public_key wm k).2).do_public_key_auth = wm.do_public_key_auth := by
  unfold delete_public_key
  split_ifs <;> rfl

/-- `delete_public_key` never changes the allowed list. -/
theorem delete_public_key_allowed (wm : WorkerManager) (k : String) :
    ((delete_public_key wm k).2).allowed_workers = wm.allowed_workers := by
  unfold delete_public_key
  split_ifs <;> rfl

/-- `delete_public_key` never changes the registration map. -/
theorem delete_public_key_registered (wm : WorkerManager) (k : String) :
    ((delete_public_key wm k).2).registered_workers = wm.registered_workers := by
  unfold delete_public_key
  split_ifs <;> rfl

/-- A key other than the deleted one survives `delete_public_key`. -/
theorem delete_public_key_keys_of_ne (wm : WorkerManager) (k a : String)
    (h : a ∈ wm.public_keys) (hne : a ≠ k) :
    a ∈ ((delete_public_key wm k).2).public_keys := by
  unfold delete_public_key
  split_ifs <;> simp [h]
  exact mem_removeFirst_of_ne wm.public_keys a k hne h

/-- The two possible outcomes of `_add_worker`: no state change, or the
insertion of a fresh identity into both `allowed_workers` and
`registered_workers`; in safe mode the inserted branch moreover has the
key stored. -/
theorem _add_worker_state (wm : WorkerManager) (k ts : String) :
    (_add_worker wm k ts).2 = wm ∨
    ((_add_worker wm k ts).2 = { wm with
        allowed_workers := wm.allowed_workers ++ [generate_id_for_worker wm k ts],
        registered_workers := dictSet wm.registered_workers (generate_id_for_worker wm k ts) false }
      ∧ generate_id_for_worker wm k ts ∉ wm.allowed_workers
      ∧ (wm.do_public_key_auth = true → k ∈ wm.public_keys)) := by
  simp only [_add_worker]
  split_ifs with h1 h2
  · left
    rfl
  · left
    rfl
  · right
    refine ⟨rfl, h2, fun hauth => ?_⟩
    by_contra hk
    exact h1 ⟨hauth, hk⟩

/-- The state after `add_worker` factors through `add_public_key` and
`_add_worker`. -/
theorem add_worker_state (wm : WorkerManager) (k ts : String) :
    (add_worker wm k ts).2 = (_add_worker (add_public_key wm k).2 k ts).2 ∨
    (add_worker wm k ts).2 = (add_public_key wm k).2 := by
  simp only [add_worker, add_worker_res]
  split_ifs with h1 h2
  · left
    rfl
  · right
    rfl
  · left
    have hf : wm.do_public_key_auth = false := by
      cases hb : wm.do_public_key_auth
      · rfl
      · exact absurd hb h1
    have hnoop : (add_public_key wm k).2 = wm := by
      unfold add_public_key
      rw [if_pos hf]
    rw [hnoop]

/-- The two possible outcomes of the state change of
`set_registration_status` (including the raising case, which leaves the
state unchanged). -/
theorem setStatusState_cases (wm : WorkerManager) (i : String) (b : Bool) :
    setStatusState wm i b = wm ∨
    (setStatusState wm i b = { wm with registered_workers := dictSet wm.registered_workers i b }
      ∧ i ∈ wm.allowed_workers) := by
  unfold setStatusState set_registration_status
  split_ifs with h
  · cases halo : alookup wm.registered_workers i
    · left
      simp [halo]
    · right
      exact ⟨by simp [halo], h⟩
  · left
    simp

/-- The two possible outcomes of the state change of `remove_worker`. -/
theorem remove_worker_state (wm : WorkerManager) (i : String) :
    (remove_worker wm i).2 = wm ∨
    ((remove_worker wm i).2 =
        (delete_public_key { wm with allowed_workers := removeFirst wm.allowed_workers i } i).2
      ∧ i ∈ wm.allowed_workers) := by
  unfold remove_worker
  split_ifs with h
  · right
    exact ⟨rfl, h⟩
  · left
    rfl

/-- The possible outcomes of the state change of
`authenticate_and_add_worker`: unchanged, or `_add_worker` followed by
the `set_registration_status` state change, with the key stored when in
safe mode (from the successful authentication). -/
theorem authAddState_cases (sigOk : String → String → Bool) (wm : WorkerManager)
    (k msg ts : String) :
    authAddState sigOk wm k msg ts = wm ∨
    (authAddState sigOk wm k msg ts =
        setStatusState (_add_worker wm k ts).2 ((_add_worker wm k ts).1.toPair.1) true
      ∧ (wm.do_public_key_auth = true → k ∈ wm.public_keys)) := by
  unfold authAddState authenticate_worker
  split_ifs with h1 h2 h3 h4
  · right
    refine ⟨rfl, fun ht => ?_⟩
    rw [ht] at h1
    cases h1
  · left
    rfl
  · right
    exact ⟨rfl, fun _ => h2⟩
  · left
    rfl
  · left
    rfl

/-- `BaseInv` only looks at the allowed list and the registration map. -/
theorem baseInv_of_fields (wm wm' : WorkerManager)
    (ha : wm'.allowed_workers = wm.allowed_workers)
    (hr : wm'.registered_workers = wm.registered_workers)
    (h : BaseInv wm) : BaseInv wm' := by
  obtain ⟨h1, h2⟩ := h
  constructor
  · unfold InvNodupAllowed at h1 ⊢
    rw [ha]
    exact h1
  · intro j hj
    rw [ha] at hj
    rw [hr]
    exact h2 j hj

/-- `InvStatusOnlyAllowed` only looks at the allowed list and the
registration map. -/
theorem invB_of_fields (wm wm' : WorkerManager)
    (ha : wm'.allowed_workers = wm.allowed_workers)
    (hr : wm'.registered_workers = wm.registered_workers)
    (h : InvStatusOnlyAllowed wm) : InvStatusOnlyAllowed wm' := by
  intro j hj
  rw [hr] at hj
  rw [ha]
  exact h j hj

/-- `InvKeyForAllowed` only looks at the mode, allowed list and keys. -/
theorem invI1_of_fields (wm wm' : WorkerManager)
    (hauth : wm'.do_public_key_auth = wm.do_public_key_auth)
    (ha : wm'.allowed_workers = wm.allowed_workers)
    (hk : wm'.public_keys = wm.public_keys)
    (h : InvKeyForAllowed wm) : InvKeyForAllowed wm' := by
  intro hq j hj
  rw [hauth] at hq
  rw [ha] at hj
  rw [hk]
  exact h hq j hj

/-- `add_public_key` preserves the structural invariants. -/
theorem baseInv_add_public_key (wm : WorkerManager) (k : String) (h : BaseInv wm) :
    BaseInv (add_public_key wm k).2 :=
  baseInv_of_fields wm _ (add_public_key_allowed wm k) (add_public_key_registered wm k) h

/-- `delete_public_key` preserves the structural invariants. -/
theorem baseInv_delete_public_key (wm : WorkerManager) (k : String) (h : BaseInv wm) :
    BaseInv (delete_public_key wm k).2 :=
  baseInv_of_fields wm _ (delete_public_key_allowed wm k) (delete_public_key_registered wm k) h

/-- `_add_worker` preserves the structural invariants. -/
theorem baseInv__add_worker (wm : WorkerManager) (k ts : String) (h : BaseInv wm) :
    BaseInv (_add_worker wm k ts).2 := by
  rcases _add_worker_state wm k ts with heq | ⟨heq, hnotin, hkey⟩
  · rw [heq]
    exact h
  · rw [heq]
    obtain ⟨h1, h2⟩ := h
    constructor
    · unfold InvNodupAllowed at h1 ⊢
      refine List.Nodup.append h1 (List.nodup_singleton _) ?_
      intro x hx hxs
      rw [List.mem_singleton] at hxs
      rw [hxs] at hx
      exact hnotin hx
    · intro j hj
      simp only [List.mem_append, List.mem_singleton] at hj
      show (alookup (dictSet wm.registered_workers (generate_id_for_worker wm k ts) false) j).isSome = true
      rw [alookup_dictSet]
      rcases hj with hj | hj
      · split_ifs with hje
        · simp
        · exact h2 j hj
      · rw [if_pos hj]
        simp

/-- `add_worker` preserves the structural invariants. -/
theorem baseInv_add_worker (wm : WorkerManager) (k ts : String) (h : BaseInv wm) :
    BaseInv (add_worker wm k ts).2 := by
  rcases add_worker_state wm k ts with heq | heq
  · rw [heq]
    exact baseInv__add_worker _ k ts (baseInv_add_public_key wm k h)
  · rw [heq]
    exact baseInv_add_public_key wm k h

/-- The `set_registration_status` state change preserves the structural
invariants. -/
theorem baseInv_setStatusState (wm : WorkerManager) (i : String) (b : Bool) (h : BaseInv wm) :
    BaseInv (setStatusState wm i b) := by
  rcases setStatusState_cases wm i b with heq | ⟨heq, hmem⟩
  · rw [heq]
    exact h
  · rw [heq]
    obtain ⟨h1, h2⟩ := h
    refine ⟨h1, ?_⟩
    intro j hj
    show (alookup (dictSet wm.registered_workers i b) j).isSome = true
    rw [alookup_dictSet]
    split_ifs with hje
    · simp
    · exact h2 j hj

/-- `remove_worker` preserves the structural invariants. -/
theorem baseInv_remove_worker (wm : WorkerManager) (i : String) (h : BaseInv wm) :
    BaseInv (remove_worker wm i).2 := by
  rcases remove_worker_state wm i with heq | ⟨heq, hmem⟩
  · rw [heq]
    exact h
  · rw [heq]
    obtain ⟨h1, h2⟩ := h
    constructor
    · unfold InvNodupAllowed at h1 ⊢
      rw [delete_public_key_allowed]
      exact nodup_removeFirst _ i h1
    · intro j hj
      rw [delete_public_key_allowed] at hj
      rw [delete_public_key_registered]
      exact h2 j (mem_removeFirst _ j i hj)

/-- The `authenticate_and_add_worker` state change preserves the
structural invariants. -/
theorem baseInv_authAddState (sigOk : String → String → Bool) (wm : WorkerManager)
    (k msg ts : String) (h : BaseInv wm) : BaseInv (authAddState sigOk wm k msg ts) := by
  rcases authAddState_cases sigOk wm k msg ts with heq | ⟨heq, hkey⟩
  · rw [heq]
    exact h
  · rw [heq]
    exact baseInv_setStatusState _ _ _ (baseInv__add_worker wm k ts h)

/-- Every public operation preserves the structural invariants. -/
theorem baseInv_applyOp (sigOk : String → String → Bool) (wm : WorkerManager) (op : Op)
    (h : BaseInv wm) : BaseInv (applyOp sigOk wm op) := by
  cases op with
  | opAddWorker k ts => exact baseInv_add_worker wm k ts h
  | opRemoveWorker i => exact baseInv_remove_worker wm i h
  | opSetStatus i b => exact baseInv_setStatusState wm i b h
  | opAuthAdd k msg ts => exact baseInv_authAddState sigOk wm k msg ts h
  | opAddKey k => exact baseInv_add_public_key wm k h
  | opRemoveKey k => exact baseInv_delete_public_key wm k h

/-- The empty states satisfy the structural invariants. -/
theorem baseInv_empty (b : Bool) : BaseInv ⟨b, [], [], []⟩ := by
  constructor
  · exact List.nodup_nil
  · intro j hj
    simp at hj

/-- The constructor loop body preserves the structural invariants. -/
theorem baseInv_initKeyStep (wm : WorkerManager) (k : String) (h : BaseInv wm) :
    BaseInv (initKeyStep wm k) := by
  simp only [initKeyStep]
  split_ifs
  · exact baseInv_add_worker _ k _ (baseInv_add_public_key wm k h)
  · exact baseInv_add_public_key wm k h

/-- The constructor only produces states satisfying the structural
invariants. -/
theorem baseInv_init (safe : Bool) (kl : Option (List String)) (wm : WorkerManager)
    (h : WorkerManager.init safe kl = some wm) : BaseInv wm := by
  unfold WorkerManager.init at h
  split_ifs at h with h1
  · cases kl with
    | some lines => cases h
    | none =>
      rw [Option.some_inj] at h
      rw [← h]
      exact baseInv_empty false
  · cases kl with
    | none =>
      rw [Option.some_inj] at h
      rw [← h]
      exact baseInv_empty true
    | some lines =>
      rw [Option.some_inj] at h
      rw [← h]
      have hall : ∀ (l : List String) (w : WorkerManager), BaseInv w →
          BaseInv (l.foldl initKeyStep w) := by
        intro l
        induction l with
        | nil => intro w hw; exact hw
        | cons x xs ih => intro w hw; exact ih _ (baseInv_initKeyStep w x hw)
      exact hall lines _ (baseInv_empty true)

/-- Every reachable state satisfies the structural invariants. -/
theorem baseInv_reachable (sigOk : String → String → Bool) (P : Op → Prop) (wm : WorkerManager)
    (h : ReachableVia sigOk P wm) : BaseInv wm := by
  induction h with
  | init safe kl wm hinit => exact baseInv_init safe kl wm hinit
  | step wm op hr hP ih => exact baseInv_applyOp sigOk wm op ih

/-- `_add_worker` preserves the inclusion of registration keys in the
allowed list. -/
theorem invB__add_worker (wm : WorkerManager) (k ts : String) (h : InvStatusOnlyAllowed wm) :
    InvStatusOnlyAllowed (_add_worker wm k ts).2 := by
  rcases _add_worker_state wm k ts with heq | ⟨heq, hnotin, hkey⟩
  · rw [heq]
    exact h
  · rw [heq]
    intro j hj
    show j ∈ wm.allowed_workers ++ [generate_id_for_worker wm k ts]
    rw [show ({ wm with
        allowed_workers := wm.allowed_workers ++ [generate_id_for_worker wm k ts],
        registered_workers := dictSet wm.registered_workers (generate_id_for_worker wm k ts)
          false } : WorkerManager).registered_workers =
        dictSet wm.registered_workers (generate_id_for_worker wm k ts) false from rfl] at hj
    rw [alookup_dictSet] at hj
    simp only [List.mem_append, List.mem_singleton]
    split_ifs at hj with hje
    · exact Or.inr hje
    · exact Or.inl (h j hj)

/-- `add_worker` preserves the inclusion of registration keys in the
allowed list. -/
theorem invB_add_worker (wm : WorkerManager) (k ts : String) (h : InvStatusOnlyAllowed wm) :
    InvStatusOnlyAllowed (add_worker wm k ts).2 := by
  rcases add_worker_state wm k ts with heq | heq
  · rw [heq]
    refine invB__add_worker _ k ts ?_
    exact invB_of_fields wm _ (add_public_key_allowed wm k) (add_public_key_registered wm k) h
  · rw [heq]
    exact invB_of_fields wm _ (add_public_key_allowed wm k) (add_public_key_registered wm k) h

/-- The `set_registration_status` state change preserves the inclusion
of registration keys in the allowed list. -/
theorem invB_setStatusState (wm : WorkerManager) (i : String) (b : Bool)
    (h : InvStatusOnlyAllowed wm) : InvStatusOnlyAllowed (setStatusState wm i b) := by
  rcases setStatusState_cases wm i b with heq | ⟨heq, hmem⟩
  · rw [heq]
    exact h
  · rw [heq]
    intro j hj
    show j ∈ wm.allowed_workers
    rw [show ({ wm with registered_workers := dictSet wm.registered_workers i b } :
        WorkerManager).registered_workers = dictSet wm.registered_workers i b from rfl] at hj
    rw [alookup_dictSet] at hj
    split_ifs at hj with hje
    · rw [hje]
      exact hmem
    · exact h j hj

/-- The `authenticate_and_add_worker` state change preserves the
inclusion of registration keys in the allowed list. -/
theorem invB_authAddState (sigOk : String → String → Bool) (wm : WorkerManager)
    (k msg ts : String) (h : InvStatusOnlyAllowed wm) :
    InvStatusOnlyAllowed (authAddState sigOk wm k msg ts) := by
  rcases authAddState_cases sigOk wm k msg ts with heq | ⟨heq, hkey⟩
  · rw [heq]
    exact h
  · rw [heq]
    exact invB_setStatusState _ _ _ (invB__add_worker wm k ts h)

/-- Every public operation other than `remove_worker` preserves the
inclusion of registration keys in the allowed list. -/
theorem invB_applyOp (sigOk : String → String → Bool) (wm : WorkerManager) (op : Op)
    (h : InvStatusOnlyAllowed wm) (hop : noRemoveWorkerOp op) :
    InvStatusOnlyAllowed (applyOp sigOk wm op) := by
  cases op with
  | opAddWorker k ts => exact invB_add_worker wm k ts h
  | opRemoveWorker i => exact absurd rfl (hop i)
  | opSetStatus i b => exact invB_setStatusState wm i b h
  | opAuthAdd k msg ts => exact invB_authAddState sigOk wm k msg ts h
  | opAddKey k =>
    exact invB_of_fields wm _ (add_public_key_allowed wm k) (add_public_key_registered wm k) h
  | opRemoveKey k =>
    exact invB_of_fields wm _ (delete_public_key_allowed wm k)
      (delete_public_key_registered wm k) h

/-- The empty states satisfy the inclusion of registration keys in the
allowed list. -/
theorem invB_empty (b : Bool) : InvStatusOnlyAllowed ⟨b, [], [], []⟩ := by
  intro j hj
  simp [alookup] at hj

/-- The constructor loop body preserves the inclusion of registration
keys in the allowed list. -/
theorem invB_initKeyStep (wm : WorkerManager) (k : String) (h : InvStatusOnlyAllowed wm) :
    InvStatusOnlyAllowed (initKeyStep wm k) := by
  simp only [initKeyStep]
  split_ifs
  · exact invB_add_worker _ k _
      (invB_of_fields wm _ (add_public_key_allowed wm k) (add_public_key_registered wm k) h)
  · exact invB_of_fields wm _ (add_public_key_allowed wm k) (add_public_key_registered wm k) h

/-- The constructor only produces states satisfying the inclusion of
registration keys in the allowed list. -/
theorem invB_init (safe : Bool) (kl : Option (List String)) (wm : WorkerManager)
    (h : WorkerManager.init safe kl = some wm) : InvStatusOnlyAllowed wm := by
  unfold WorkerManager.init at h
  split_ifs at h with h1
  · cases kl with
    | some lines => cases h
    | none =>
      rw [Option.some_inj] at h
      rw [← h]
      exact invB_empty false
  · cases kl with
    | none =>
      rw [Option.some_inj] at h
      rw [← h]
      exact invB_empty true
    | some lines =>
      rw [Option.some_inj] at h
      rw [← h]
      have hall : ∀ (l : List String) (w : WorkerManager), InvStatusOnlyAllowed w →
          InvStatusOnlyAllowed (l.foldl initKeyStep w) := by
        intro l
        induction l with
        | nil => intro w hw; exact hw
        | cons x xs ih => intro w hw; exact ih _ (invB_initKeyStep w x hw)
      exact hall lines _ (invB_empty true)

/-- In every state reachable without `remove_worker`, the key set of the
registration map is included in the allowed list. -/
theorem invB_reachable (sigOk : String → String → Bool) (wm : WorkerManager)
    (h : ReachableVia sigOk noRemoveWorkerOp wm) : InvStatusOnlyAllowed wm := by
  induction h with
  | init safe kl wm hinit => exact invB_init safe kl wm hinit
  | step wm op hr hP ih => exact invB_applyOp sigOk wm op ih hP

/-- `add_public_key` preserves invariant I1. -/
theorem invI1_add_public_key (wm : WorkerManager) (k : String) (h : InvKeyForAllowed wm) :
    InvKeyForAllowed (add_public_key wm k).2 := by
  intro hq j hj
  rw [add_public_key_allowed] at hj
  rw [add_public_key_auth] at hq
  exact add_public_key_keys_mono wm k j (h hq j hj)

/-- `_add_worker` preserves invariant I1. -/
theorem invI1__add_worker (wm : WorkerManager) (k ts : String) (h : InvKeyForAllowed wm) :
    InvKeyForAllowed (_add_worker wm k ts).2 := by
  rcases _add_worker_state wm k ts with heq | ⟨heq, hnotin, hkey⟩
  · rw [heq]
    exact h
  · rw [heq]
    intro hq j hj
    show j ∈ wm.public_keys
    have hq' : wm.do_public_key_auth = true := hq
    have hj' : j ∈ wm.allowed_workers ++ [generate_id_for_worker wm k ts] := hj
    simp only [List.mem_append, List.mem_singleton] at hj'
    rcases hj' with hj' | hj'
    · exact h hq' j hj'
    · rw [hj']
      rw [show generate_id_for_worker wm k ts = k from by
        simp [generate_id_for_worker, hq']]
      exact hkey hq'

/-- `add_worker` preserves invariant I1. -/
theorem invI1_add_worker (wm : WorkerManager) (k ts : String) (h : InvKeyForAllowed wm) :
    InvKeyForAllowed (add_worker wm k ts).2 := by
  rcases add_worker_state wm k ts with heq | heq
  · rw [heq]
    exact invI1__add_worker _ k ts (invI1_add_public_key wm k h)
  · rw [heq]
    exact invI1_add_public_key wm k h

/-- The `set_registration_status` state change preserves invariant I1. -/
theorem invI1_setStatusState (wm : WorkerManager) (i : String) (b : Bool)
    (h : InvKeyForAllowed wm) : InvKeyForAllowed (setStatusState wm i b) := by
  rcases setStatusState_cases wm i b with heq | ⟨heq, hmem⟩
  · rw [heq]
    exact h
  · rw [heq]
    exact invI1_of_fields wm _ rfl rfl rfl h

/-- `remove_worker` preserves invariant I1 (on duplicate-free states). -/
theorem invI1_remove_worker (wm : WorkerManager) (i : String) (hnd : InvNodupAllowed wm)
    (h : InvKeyForAllowed wm) : InvKeyForAllowed (remove_worker wm i).2 := by
  rcases remove_worker_state wm i with heq | ⟨heq, hmem⟩
  · rw [heq]
    exact h
  · rw [heq]
    intro hq j hj
    rw [delete_public_key_allowed] at hj
    rw [delete_public_key_auth] at hq
    have hj0 : j ∈ removeFirst wm.allowed_workers i := hj
    have hj' : j ∈ wm.allowed_workers := mem_removeFirst _ j i hj0
    have hjne : j ≠ i := by
      intro he
      rw [he] at hj0
      exact not_mem_removeFirst _ i hnd hj0
    exact delete_public_key_keys_of_ne _ i j (h hq j hj') hjne

/-- The `authenticate_and_add_worker` state change preserves I1. -/
theorem invI1_authAddState (sigOk : String → String → Bool) (wm : WorkerManager)
    (k msg ts : String) (h : InvKeyForAllowed wm) :
    InvKeyForAllowed (authAddState sigOk wm k msg ts) := by
  rcases authAddState_cases sigOk wm k msg ts with heq | ⟨heq, hkey⟩
  · rw [heq]
    exact h
  · rw [heq]
    exact invI1_setStatusState _ _ _ (invI1__add_worker wm k ts h)

/-- Every public operation other than a direct `delete_public_key`
preserves invariant I1. -/
theorem invI1_applyOp (sigOk : String → String → Bool) (wm : WorkerManager) (op : Op)
    (hnd : InvNodupAllowed wm) (h : InvKeyForAllowed wm) (hop : noRemoveKeyOp op) :
    InvKeyForAllowed (applyOp sigOk wm op) := by
  cases op with
  | opAddWorker k ts => exact invI1_add_worker wm k ts h
  | opRemoveWorker i => exact invI1_remove_worker wm i hnd h
  | opSetStatus i b => exact invI1_setStatusState wm i b h
  | opAuthAdd k msg ts => exact invI1_authAddState sigOk wm k msg ts h
  | opAddKey k => exact invI1_add_public_key wm k h
  | opRemoveKey k => exact absurd rfl (hop k)

/-- The empty states satisfy invariant I1. -/
theorem invI1_empty (b : Bool) : InvKeyForAllowed ⟨b, [], [], []⟩ := by
  intro hq j hj
  simp at hj

/-- The constructor loop body preserves invariant I1. -/
theorem invI1_initKeyStep (wm : WorkerManager) (k : String) (h : InvKeyForAllowed wm) :
    InvKeyForAllowed (initKeyStep wm k) := by
  simp only [initKeyStep]
  split_ifs
  · exact invI1_add_worker _ k _ (invI1_add_public_key wm k h)
  · exact invI1_add_public_key wm k h

/-- The constructor only produces states satisfying invariant I1. -/
theorem invI1_init (safe : Bool) (kl : Option (List String)) (wm : WorkerManager)
    (h : WorkerManager.init safe kl = some wm) : InvKeyForAllowed wm := by
  unfold WorkerManager.init at h
  split_ifs at h with h1
  · cases kl with
    | some lines => cases h
    | none =>
      rw [Option.some_inj] at h
      rw [← h]
      exact invI1_empty false
  · cases kl with
    | none =>
      rw [Option.some_inj] at h
      rw [← h]
      exact invI1_empty true
    | some lines =>
      rw [Option.some_inj] at h
      rw [← h]
      have hall : ∀ (l : List String) (w : WorkerManager), InvKeyForAllowed w →
          InvKeyForAllowed (l.foldl initKeyStep w) := by
        intro l
        induction l with
        | nil => intro w hw; exact hw
        | cons x xs ih => intro w hw; exact ih _ (invI1_initKeyStep w x hw)
      exact hall lines _ (invI1_empty true)

/-- In every state reachable without direct `delete_public_key` calls,
invariant I1 holds: every allowed identity has its key stored. -/
theorem invI1_reachable (sigOk : String → String → Bool) (wm : WorkerManager)
    (h : ReachableVia sigOk noRemoveKeyOp wm) : InvKeyForAllowed wm := by
  have hcomb : BaseInv wm ∧ InvKeyForAllowed wm := by
    induction h with
    | init safe kl wm hinit => exact ⟨baseInv_init safe kl wm hinit, invI1_init safe kl wm hinit⟩
    | step wm op hr hP ih =>
      exact ⟨baseInv_applyOp sigOk wm op ih.1, invI1_applyOp sigOk wm op ih.1.1 ih.2 hP⟩
  exact hcomb.2

/-- `_add_worker` cannot hit its consistency-fault branch when the key
is stored (or authentication is off). -/
theorem _add_worker_not_fault (wm : WorkerManager) (k ts : String)
    (h : wm.do_public_key_auth = true → k ∈ wm.public_keys) :
    ∀ m, (_add_worker wm k ts).1 ≠ AddResult.fault m := by
  intro m
  simp only [_add_worker]
  split_ifs with h1 h2
  · exact absurd (h h1.1) h1.2
  · simp
  · simp

/-- `add_public_key` succeeds on any valid key text. -/
theorem add_public_key_ok_of_valid (wm : WorkerManager) (k : String)
    (hvalid : validVerifyKey k = true) : (add_public_key wm k).1 = true := by
  unfold add_public_key
  split_ifs <;> rfl

/-- `add_public_key` on an already stored key is a no-op returning true. -/
theorem add_public_key_mem_noop (wm : WorkerManager) (k : String)
    (hk : k ∈ wm.public_keys) : add_public_key wm k = (true, wm) := by
  unfold add_public_key
  split_ifs <;> rfl

/-- A safe-mode `add_worker` of a valid, not yet allowed key text:
returns `(k, true)` and inserts the identity. -/
theorem add_worker_safe_fresh (wm : WorkerManager) (k ts : String)
    (hsafe : wm.do_public_key_auth = true) (hvalid : validVerifyKey k = true)
    (hnot : k ∉ wm.allowed_workers) :
    (add_worker wm k ts).1 = (k, true) ∧
    (add_worker wm k ts).2.do_public_key_auth = true ∧
    k ∈ (add_worker wm k ts).2.public_keys ∧
    (add_worker wm k ts).2.allowed_workers = wm.allowed_workers ++ [k] ∧
    (add_worker wm k ts).2.registered_workers = dictSet wm.registered_workers k false := by
  have hok : (add_public_key wm k).1 = true := add_public_key_ok_of_valid wm k hvalid
  have hkm : k ∈ (add_public_key wm k).2.public_keys := add_public_key_ok_mem wm k hsafe hok
  have hauthk : (add_public_key wm k).2.do_public_key_auth = true := by
    rw [add_public_key_auth]
    exact hsafe
  have hnotk : k ∉ (add_public_key wm k).2.allowed_workers := by
    rw [add_public_key_allowed]
    exact hnot
  simp [add_worker, add_worker_res, _add_worker, generate_id_for_worker, AddResult.toPair,
    hsafe, hok, hkm, hauthk, hnotk, hnot, add_public_key_allowed, add_public_key_registered]

/-- A safe-mode `add_worker` of a stored key whose identity is already
allowed: returns `(k, false)` and changes nothing. -/
theorem add_worker_safe_present (wm : WorkerManager) (k ts : String)
    (hsafe : wm.do_public_key_auth = true) (hkey : k ∈ wm.public_keys)
    (hmem : k ∈ wm.allowed_workers) :
    add_worker wm k ts = ((k, false), wm) := by
  have hnoop := add_public_key_mem_noop wm k hkey
  simp [add_worker, add_worker_res, _add_worker, generate_id_for_worker, AddResult.toPair,
    hsafe, hnoop, hkey, hmem]

/-- `remove_worker` on an identity that is not allowed: reports failure
and changes nothing. -/
theorem remove_worker_not_mem (wm : WorkerManager) (i : String)
    (h : i ∉ wm.allowed_workers) : remove_worker wm i = ((INVALID_WORKER, false), wm) := by
  unfold remove_worker
  rw [if_neg h]

/-- Appending the same suffix to different strings keeps them
different. -/
theorem append_right_ne (a b c : String) (h : a ≠ b) : a ++ c ≠ b ++ c := by
  intro he
  apply h
  apply String.ext
  have hd : (a ++ c).data = (b ++ c).data := by rw [he]
  rw [String.data_append, String.data_append] at hd
  exact List.append_cancel_right hd

/-- A dict entry makes the lookup of its key succeed. -/
theorem alookup_isSome_of_mem (d : List (String × Bool)) (p : String × Bool) (hp : p ∈ d) :
    (alookup d p.1).isSome = true := by
  induction d with
  | nil => simp at hp
  | cons q es ih =>
    obtain ⟨k0, v0⟩ := q
    rcases List.mem_cons.mp hp with hp' | hp'
    · rw [hp']
      simp [alookup]
    · by_cases he : p.1 = k0
      · simp [alookup, he]
      · simp only [alookup, if_neg he]
        exact ih hp'

/-- C8: constructing the registry in unsafe mode with a non-null
key-list file raises a configuration error at construction time for
every file content, while unsafe mode with a null key list succeeds
with the empty no-authentication state. -/
theorem claim_C8 :
    (∀ lines : List String, WorkerManager.init false (some lines) = none) ∧
    WorkerManager.init false none = some ⟨false, [], [], []⟩ := by
  constructor
  · intro lines
    rfl
  · rfl

/-- C10: in every reachable state every identity in the allowed list
has an entry in the registration map, so the status lookup performed by
`set_registration_status` for an allowed identity always finds an
existing entry and the call never raises. -/
theorem claim_C10 (sigOk : String → String → Bool) (wm : WorkerManager)
    (h : Reachable sigOk wm) :
    (∀ i ∈ wm.allowed_workers, (alookup wm.registered_workers i).isSome = true) ∧
    (∀ i b, i ∈ wm.allowed_workers → (set_registration_status wm i b).isSome = true) := by
  have hb := baseInv_reachable sigOk (fun _ => True) wm h
  refine ⟨hb.2, fun i b hi => ?_⟩
  unfold set_registration_status
  rw [if_pos hi]
  cases halo : alookup wm.registered_workers i with
  | none =>
    have hsome := hb.2 i hi
    rw [halo] at hsome
    cases hsome
  | some v => simp [halo]

/-- C10 witness: a concrete reachable state with an allowed worker on
which `set_registration_status` returns a value. -/
theorem claim_C10_witness :
    Reachable sigAll wmS1 ∧ (set_registration_status wmS1 K64 true).isSome = true := by
  have hreach : Reachable sigAll wmS1 :=
    ReachableVia.step wmSafe0 (Op.opAddWorker K64 (""))
      (ReachableVia.init true none wmSafe0 rfl) trivial
  exact ⟨hreach, (claim_C10 sigAll wmS1 hreach).2 K64 true (by decide)⟩

/-- C9: via the public entry points the internal consistency-fault
branch of `_add_worker` is unreachable: `add_worker` reaches
`_add_worker` only after `add_public_key` succeeded, and
`authenticate_and_add_worker` runs it only after authentication found
the key stored. -/
theorem claim_C9 (sigOk : String → String → Bool) (wm : WorkerManager) (k msg ts : String) :
    (∀ m, (add_worker_res wm k ts).1 ≠ AddResult.fault m) ∧
    (∀ st, authenticate_worker sigOk wm k msg = some (true, st) →
      ∀ m, (_add_worker wm k ts).1 ≠ AddResult.fault m) := by
  constructor
  · intro m
    simp only [add_worker_res]
    split_ifs with h1 h2
    · exact _add_worker_not_fault _ k ts (fun _ => add_public_key_ok_mem wm k h1 h2) m
    · simp
    · refine _add_worker_not_fault wm k ts (fun hq => ?_) m
      exact absurd hq h1
  · intro st hauth m
    refine _add_worker_not_fault wm k ts (fun hq => ?_) m
    unfold authenticate_worker at hauth
    rw [hq] at hauth
    simp only [Bool.true_eq_false, if_false] at hauth
    split_ifs at hauth with a1 a2 a3
    · exact a1
    · simp at hauth
    · simp at hauth

/-- C9 witness: the fault branch is not taken on a concrete safe-mode
state, both through `add_worker` and after a successful concrete
authentication. -/
theorem claim_C9_witness :
    authenticate_worker sigAll wmS1 K64 ("ab") = some (true, AuthStatus.authenticated) ∧
    (add_worker_res wmS1 K64 ("t")).1 ≠ AddResult.fault ("x") ∧
    (_add_worker wmS1 K64 ("t")).1 ≠ AddResult.fault ("x") := by
  refine ⟨by decide, (claim_C9 sigAll wmS1 K64 ("ab") ("t")).1 ("x"), ?_⟩
  exact (claim_C9 sigAll wmS1 K64 ("ab") ("t")).2 AuthStatus.authenticated (by decide) ("x")

/-- C4 (amended): in safe mode `authenticate_worker` returns normally
whenever the signed challenge is a decodable hex string (unknown key
yields `(false, AUTHENTICATED)`, a valid signature `(true,
AUTHENTICATED)`, a bad signature `(false, AUTHENTICATED)`); for a
non-hex signed challenge with a stored key the hex decoder raises an
error the `except BadSignatureError` clause does not catch. -/
theorem claim_C4_amended (sigOk : String → String → Bool) (wm : WorkerManager)
    (k msg : String) (hsafe : wm.do_public_key_auth = true) :
    (k ∉ wm.public_keys →
      authenticate_worker sigOk wm k msg = some (false, AuthStatus.authenticated)) ∧
    (k ∈ wm.public_keys → isHexStr msg = true →
      authenticate_worker sigOk wm k msg = some (sigOk k msg, AuthStatus.authenticated)) := by
  constructor
  · intro hk
    unfold authenticate_worker
    rw [hsafe]
    simp [hk]
  · intro hk hhex
    unfold authenticate_worker
    rw [hsafe]
    simp only [Bool.true_eq_false, if_false]
    rw [if_neg (by simp [hk]), if_neg (by simp [hhex])]
    cases hs : sigOk k msg <;> simp

/-- C4 counterexample: on a reachable safe-mode state with the key
stored, a non-hex signed challenge makes `authenticate_worker` raise
instead of returning `(false, AUTHENTICATED)`. -/
theorem claim_C4_counterexample :
    wmS1.do_public_key_auth = true ∧ K64 ∈ wmS1.public_keys ∧
    authenticate_worker sigAll wmS1 K64 ("zz") = none := by
  refine ⟨by decide, by decide, by decide⟩

/-- C4 witness: the amended theorem applied to a concrete state, an
unknown key and a valid-hex challenge. -/
theorem claim_C4_witness :
    (K64b ∉ wmS1.public_keys ∧
      authenticate_worker sigAll wmS1 K64b ("ab") = some (false, AuthStatus.authenticated)) ∧
    (K64 ∈ wmS1.public_keys ∧ isHexStr ("ab") = true ∧
      authenticate_worker sigAll wmS1 K64 ("ab") = some (true, AuthStatus.authenticated)) := by
  refine ⟨⟨by decide, (claim_C4_amended sigAll wmS1 K64b ("ab") (by decide)).1 (by decide)⟩,
    ⟨by decide, by decide, ?_⟩⟩
  exact (claim_C4_amended sigAll wmS1 K64 ("ab") (by decide)).2 (by decide) (by decide)

/-- C1 (amended): removing an allowed identity returns `(i, true)`,
afterwards the identity is no longer allowed and a second
`remove_worker` returns `(INVALID, false)`; however the
`registered_workers` entry of the identity is not removed, so
`is_worker_registered` keeps its prior value. -/
theorem claim_C1_amended (wm : WorkerManager) (i : String)
    (hnd : InvNodupAllowed wm) (hmem : i ∈ wm.allowed_workers) :
    (remove_worker wm i).1 = (i, true) ∧
    is_worker_allowed (remove_worker wm i).2 i = false ∧
    ((remove_worker wm i).2).registered_workers = wm.registered_workers ∧
    is_worker_registered (remove_worker wm i).2 i = is_worker_registered wm i ∧
    (remove_worker (remove_worker wm i).2 i).1 = (INVALID_WORKER, false) := by
  have hres : (remove_worker wm i).1 = (i, true) := by
    unfold remove_worker
    rw [if_pos hmem]
  have hstate : (remove_worker wm i).2 =
      (delete_public_key { wm with allowed_workers := removeFirst wm.allowed_workers i } i).2 := by
    unfold remove_worker
    rw [if_pos hmem]
  have hallow : ((remove_worker wm i).2).allowed_workers = removeFirst wm.allowed_workers i := by
    rw [hstate, delete_public_key_allowed]
  have hreg : ((remove_worker wm i).2).registered_workers = wm.registered_workers := by
    rw [hstate, delete_public_key_registered]
  have hnotmem : i ∉ ((remove_worker wm i).2).allowed_workers := by
    rw [hallow]
    exact not_mem_removeFirst _ i hnd
  refine ⟨hres, ?_, hreg, ?_, ?_⟩
  · unfold is_worker_allowed
    simp [hnotmem]
  · unfold is_worker_registered
    rw [hreg]
  · rw [remove_worker_not_mem _ i hnotmem]

/-- C1 counterexample: on a reachable state where K64 is allowed and
registered, `remove_worker` succeeds but afterwards
`is_worker_registered` is still true and the registration entry is
still present, contradicting the claim. -/
theorem claim_C1_counterexample :
    K64 ∈ wmS2.allowed_workers ∧
    (remove_worker wmS2 K64).1 = (K64, true) ∧
    is_worker_registered (remove_worker wmS2 K64).2 K64 = true ∧
    alookup ((remove_worker wmS2 K64).2).registered_workers K64 = some true := by
  refine ⟨by decide, by decide, by decide, by decide⟩

/-- C1 witness: the amended theorem applied to the concrete registered
state. -/
theorem claim_C1_witness :
    (InvNodupAllowed wmS2 ∧ K64 ∈ wmS2.allowed_workers) ∧
    (remove_worker wmS2 K64).1 = (K64, true) ∧
    is_worker_allowed (remove_worker wmS2 K64).2 K64 = false ∧
    (remove_worker (remove_worker wmS2 K64).2 K64).1 = (INVALID_WORKER, false) := by
  have hnd : InvNodupAllowed wmS2 := by
    unfold InvNodupAllowed
    decide
  have h := claim_C1_amended wmS2 K64 hnd (by decide)
  exact ⟨⟨hnd, by decide⟩, h.1, h.2.1, h.2.2.2.2⟩

/-- C2 (amended): in every state reachable without `remove_worker`, the
key set of the registration map is included in the allowed list and
`get_worker_list` only reports allowed identities; `remove_worker`
itself breaks the inclusion because it leaves the registration entry in
place. -/
theorem claim_C2_amended (sigOk : String → String → Bool) (wm : WorkerManager)
    (h : ReachableVia sigOk noRemoveWorkerOp wm) :
    (∀ i, (alookup wm.registered_workers i).isSome = true → i ∈ wm.allowed_workers) ∧
    (∀ p ∈ get_worker_list wm, p.1 ∈ wm.allowed_workers) := by
  have hb := invB_reachable sigOk wm h
  refine ⟨hb, fun p hp => ?_⟩
  exact hb p.1 (alookup_isSome_of_mem wm.registered_workers p hp)

/-- C2 counterexample: a state reached by add then remove in which the
registration map still holds the removed identity, so its key set is
not included in the allowed list and `get_worker_list` reports an
identity that is no longer allowed. -/
theorem claim_C2_counterexample :
    Reachable sigAll wmS3 ∧
    (alookup wmS3.registered_workers K64).isSome = true ∧
    K64 ∉ wmS3.allowed_workers ∧
    (K64, false) ∈ get_worker_list wmS3 := by
  have h0 : Reachable sigAll wmSafe0 := ReachableVia.init true none wmSafe0 rfl
  have h1 : Reachable sigAll wmS1 :=
    ReachableVia.step wmSafe0 (Op.opAddWorker K64 ("")) h0 trivial
  have h2 : Reachable sigAll wmS3 :=
    ReachableVia.step wmS1 (Op.opRemoveWorker K64) h1 trivial
  exact ⟨h2, by decide, by decide, by decide⟩

/-- C2 witness: the amended theorem applied to a concrete state
reachable without `remove_worker`. -/
theorem claim_C2_witness :
    ReachableVia sigAll noRemoveWorkerOp wmS1 ∧
    (K64, false) ∈ get_worker_list wmS1 ∧ K64 ∈ wmS1.allowed_workers := by
  have h0 : ReachableVia sigAll noRemoveWorkerOp wmSafe0 :=
    ReachableVia.init true none wmSafe0 rfl
  have h1 : ReachableVia sigAll noRemoveWorkerOp wmS1 :=
    ReachableVia.step wmSafe0 (Op.opAddWorker K64 ("")) h0 (fun i hi => Op.noConfusion hi)
  exact ⟨h1, by decide, (claim_C2_amended sigAll wmS1 h1).2 (K64, false) (by decide)⟩

/-- C5 (amended): in safe mode, invariant I1 (every allowed identity
has its key text stored) holds in every state reachable without direct
`delete_public_key` calls; a direct `delete_public_key` on an allowed
identity violates it. -/
theorem claim_C5_amended (sigOk : String → String → Bool) (wm : WorkerManager)
    (h : ReachableVia sigOk noRemoveKeyOp wm) (hsafe : wm.do_public_key_auth = true) :
    ∀ i ∈ wm.allowed_workers, i ∈ wm.public_keys :=
  invI1_reachable sigOk wm h hsafe

/-- C5 counterexample: a reachable safe-mode state (add then direct
`delete_public_key`) with an allowed identity whose key record is
gone, violating I1. -/
theorem claim_C5_counterexample :
    Reachable sigAll wmS4 ∧ wmS4.do_public_key_auth = true ∧
    K64 ∈ wmS4.allowed_workers ∧ K64 ∉ wmS4.public_keys := by
  have h0 : Reachable sigAll wmSafe0 := ReachableVia.init true none wmSafe0 rfl
  have h1 : Reachable sigAll wmS1 :=
    ReachableVia.step wmSafe0 (Op.opAddWorker K64 ("")) h0 trivial
  have h2 : Reachable sigAll wmS4 :=
    ReachableVia.step wmS1 (Op.opRemoveKey K64) h1 trivial
  exact ⟨h2, by decide, by decide, by decide⟩

/-- C5 witness: the amended theorem applied to a concrete state
reachable without `delete_public_key`. -/
theorem claim_C5_witness :
    ReachableVia sigAll noRemoveKeyOp wmS1 ∧ wmS1.do_public_key_auth = true ∧
    K64 ∈ wmS1.allowed_workers ∧ K64 ∈ wmS1.public_keys := by
  have h0 : ReachableVia sigAll noRemoveKeyOp wmSafe0 :=
    ReachableVia.init true none wmSafe0 rfl
  have h1 : ReachableVia sigAll noRemoveKeyOp wmS1 :=
    ReachableVia.step wmSafe0 (Op.opAddWorker K64 ("")) h0 (fun i hi => Op.noConfusion hi)
  exact ⟨h1, by decide, by decide,
    claim_C5_amended sigAll wmS1 h1 (by decide) K64 (by decide)⟩

/-- C6: in the unsafe-mode state built by the constructor,
`authenticate_worker` returns `(true, NO_AUTHENTICATION)` for every
pair of input strings, and two successive `add_worker` calls with the
same key text but distinct timestamp digests insert two distinct fresh
identities, both allowed, each returning `(identity, true)`. -/
theorem claim_C6 (sigOk : String → String → Bool) (wm : WorkerManager) (k ts1 ts2 : String)
    (hinit : WorkerManager.init false none = some wm) (hts : ts1 ≠ ts2) :
    (∀ a b : String,
      authenticate_worker sigOk wm a b = some (true, AuthStatus.no_authentication)) ∧
    (add_worker wm k ts1).1 = (ts1 ++ "_unauthenticated", true) ∧
    (add_worker (add_worker wm k ts1).2 k ts2).1 = (ts2 ++ "_unauthenticated", true) ∧
    ts1 ++ "_unauthenticated" ≠ ts2 ++ "_unauthenticated" ∧
    is_worker_allowed (add_worker (add_worker wm k ts1).2 k ts2).2
      (ts1 ++ "_unauthenticated") = true ∧
    is_worker_allowed (add_worker (add_worker wm k ts1).2 k ts2).2
      (ts2 ++ "_unauthenticated") = true := by
  have hwm : wm = ⟨false, [], [], []⟩ := by
    unfold WorkerManager.init at hinit
    simp at hinit
    exact hinit.symm
  subst hwm
  have hne12 : ts1 ++ "_unauthenticated" ≠ ts2 ++ "_unauthenticated" :=
    append_right_ne ts1 ts2 ("_unauthenticated") hts
  have hne21 : ts2 ++ "_unauthenticated" ≠ ts1 ++ "_unauthenticated" := fun he => hne12 he.symm
  have h1 : add_worker ⟨false, [], [], []⟩ k ts1 =
      ((ts1 ++ "_unauthenticated", true),
        ⟨false, [], [ts1 ++ "_unauthenticated"], [(ts1 ++ "_unauthenticated", false)]⟩) := by
    simp [add_worker, add_worker_res, _add_worker, generate_id_for_worker, AddResult.toPair,
      dictSet]
  have h2 : add_worker ⟨false, [], [ts1 ++ "_unauthenticated"],
      [(ts1 ++ "_unauthenticated", false)]⟩ k ts2 =
      ((ts2 ++ "_unauthenticated", true),
        ⟨false, [], [ts1 ++ "_unauthenticated", ts2 ++ "_unauthenticated"],
          [(ts1 ++ "_unauthenticated", false), (ts2 ++ "_unauthenticated", false)]⟩) := by
    simp [add_worker, add_worker_res, _add_worker, generate_id_for_worker, AddResult.toPair,
      dictSet, hne21, hne12]
  refine ⟨fun a b => rfl, ?_, ?_, hne12, ?_, ?_⟩
  · rw [h1]
  · rw [h1, h2]
  · rw [h1, h2]
    unfold is_worker_allowed
    simp
  · rw [h1, h2]
    unfold is_worker_allowed
    simp

/-- C6 witness: the theorem applied to the concrete unsafe-mode
construction, the same key text twice, and two distinct timestamp
digests. -/
theorem claim_C6_witness :
    WorkerManager.init false none = some ⟨false, [], [], []⟩ ∧
    ("t1" : String) ≠ "t2" ∧
    authenticate_worker sigNone ⟨false, [], [], []⟩ ("anything") ("anything") =
      some (true, AuthStatus.no_authentication) ∧
    (add_worker ⟨false, [], [], []⟩ ("samekey") ("t1")).1 =
      ("t1" ++ "_unauthenticated", true) ∧
    (add_worker (add_worker ⟨false, [], [], []⟩ ("samekey") ("t1")).2 ("samekey") ("t2")).1 =
      ("t2" ++ "_unauthenticated", true) := by
  have h := claim_C6 sigNone ⟨false, [], [], []⟩ ("samekey") ("t1") ("t2") rfl (by decide)
  exact ⟨rfl, by decide, h.1 ("anything") ("anything"), h.2.1, h.2.2.1⟩

/-- C7: in safe mode a valid, not yet allowed key text is added with
`(k, true)` and becomes allowed; a second `add_worker` of the same key
returns `(k, false)` while the identity stays allowed and the allowed
list holds exactly one entry for it. -/
theorem claim_C7 (wm : WorkerManager) (k ts1 ts2 : String)
    (hsafe : wm.do_public_key_auth = true) (hvalid : validVerifyKey k = true)
    (hnot : k ∉ wm.allowed_workers) :
    (add_worker wm k ts1).1 = (k, true) ∧
    is_worker_allowed (add_worker wm k ts1).2 k = true ∧
    (add_worker (add_worker wm k ts1).2 k ts2).1 = (k, false) ∧
    is_worker_allowed (add_worker (add_worker wm k ts1).2 k ts2).2 k = true ∧
    ((add_worker (add_worker wm k ts1).2 k ts2).2.allowed_workers).count k = 1 := by
  obtain ⟨h1, h2, h3, h4, h5⟩ := add_worker_safe_fresh wm k ts1 hsafe hvalid hnot
  have hmem1 : k ∈ (add_worker wm k ts1).2.allowed_workers := by
    rw [h4]
    simp
  have hsecond := add_worker_safe_present (add_worker wm k ts1).2 k ts2 h2 h3 hmem1
  refine ⟨h1, ?_, ?_, ?_, ?_⟩
  · unfold is_worker_allowed
    simp [hmem1]
  · rw [hsecond]
  · unfold is_worker_allowed
    rw [hsecond]
    simp [hmem1]
  · rw [hsecond]
    show ((add_worker wm k ts1).2.allowed_workers).count k = 1
    rw [h4, List.count_append, List.count_eq_zero.mpr hnot]
    simp

/-- C7 witness: the theorem applied to the empty safe-mode state and
the concrete 64-digit key text. -/
theorem claim_C7_witness :
    (validVerifyKey K64 = true ∧ K64 ∉ wmSafe0.allowed_workers) ∧
    (add_worker wmSafe0 K64 ("t1")).1 = (K64, true) ∧
    (add_worker (add_worker wmSafe0 K64 ("t1")).2 K64 ("t2")).1 = (K64, false) ∧
    ((add_worker (add_worker wmSafe0 K64 ("t1")).2 K64 ("t2")).2.allowed_workers).count K64
      = 1 := by
  have h := claim_C7 wmSafe0 K64 ("t1") ("t2") rfl (by decide) (by decide)
  exact ⟨⟨by decide, by decide⟩, h.1, h.2.2.1, h.2.2.2.2⟩

/-- `set_registration_status` on an allowed identity whose entry
exists: overwrites the status and reports `(i, true)`. -/
theorem set_registration_status_found (wm : WorkerManager) (i : String) (b v : Bool)
    (hmem : i ∈ wm.allowed_workers) (hv : alookup wm.registered_workers i = some v) :
    set_registration_status wm i b =
      some ((i, true), { wm with registered_workers := dictSet wm.registered_workers i b }) := by
  unfold set_registration_status
  rw [if_pos hmem, hv]

/-- C3: in safe mode with the key stored, a valid signature makes
`authenticate_and_add_worker` return `(k, true)` and leaves the
identity registered; on authentication failure (unknown key, or stored
key with a decodable but invalid signature) it returns
`(INVALID, false)` and the state is completely unchanged, so an
existing registration status stays as it was. -/
theorem claim_C3 (sigOk : String → String → Bool) (wm : WorkerManager) (k msg ts : String)
    (hsafe : wm.do_public_key_auth = true) (hinv : InvStatusForAllowed wm) :
    (k ∈ wm.public_keys → isHexStr msg = true → sigOk k msg = true →
      ∃ wm2, authenticate_and_add_worker sigOk wm k msg ts = some ((k, true), wm2) ∧
        is_worker_registered wm2 k = true) ∧
    ((k ∉ wm.public_keys ∨ (isHexStr msg = true ∧ sigOk k msg = false)) →
      authenticate_and_add_worker sigOk wm k msg ts = some ((INVALID_WORKER, false), wm)) := by
  constructor
  · intro hk hhex hsig
    have hauth : authenticate_worker sigOk wm k msg = some (true, AuthStatus.authenticated) := by
      unfold authenticate_worker
      rw [hsafe]
      simp only [Bool.true_eq_false, if_false]
      rw [if_neg (by simp [hk]), if_neg (by simp [hhex]), if_pos hsig]
    by_cases hmem : k ∈ wm.allowed_workers
    · have hr : _add_worker wm k ts = (AddResult.ret k false, wm) := by
        simp [_add_worker, generate_id_for_worker, hsafe, hk, hmem]
      obtain ⟨v, hv⟩ : ∃ v, alookup wm.registered_workers k = some v := by
        cases hl : alookup wm.registered_workers k with
        | none =>
          have hlook := hinv k hmem
          rw [hl] at hlook
          cases hlook
        | some v => exact ⟨v, rfl⟩
      have hset := set_registration_status_found wm k true v hmem hv
      refine ⟨{ wm with registered_workers := dictSet wm.registered_workers k true }, ?_, ?_⟩
      · simp only [authenticate_and_add_worker, hauth, hr, AddResult.toPair]
        exact hset
      · unfold is_worker_registered
        show (alookup (dictSet wm.registered_workers k true) k).getD false = true
        rw [alookup_dictSet]
        simp
    · have hr : _add_worker wm k ts = (AddResult.ret k true,
          { wm with allowed_workers := wm.allowed_workers ++ [k],
                    registered_workers := dictSet wm.registered_workers k false }) := by
        simp [_add_worker, generate_id_for_worker, hsafe, hk, hmem]
      have hmem2 : k ∈ wm.allowed_workers ++ [k] := by
        simp
      have hv2 : alookup (dictSet wm.registered_workers k false) k = some false := by
        rw [alookup_dictSet]
        simp
      have hset := set_registration_status_found
        { wm with allowed_workers := wm.allowed_workers ++ [k],
                  registered_workers := dictSet wm.registered_workers k false } k true false
        hmem2 hv2
      have hfull : authenticate_and_add_worker sigOk wm k msg ts =
          some ((k, true),
            { wm with allowed_workers := wm.allowed_workers ++ [k],
                      registered_workers :=
                        dictSet (dictSet wm.registered_workers k false) k true }) := by
        simp only [authenticate_and_add_worker, hauth, hr, AddResult.toPair]
        exact hset
      refine ⟨_, hfull, ?_⟩
      · unfold is_worker_registered
        show (alookup (dictSet (dictSet wm.registered_workers k false) k true) k).getD false
          = true
        rw [alookup_dictSet]
        simp
  · intro hfail
    have hauth : authenticate_worker sigOk wm k msg = some (false, AuthStatus.authenticated) := by
      unfold authenticate_worker
      rw [hsafe]
      simp only [Bool.true_eq_false, if_false]
      rcases hfail with hk | ⟨hhex, hsig⟩
      · rw [if_pos hk]
      · by_cases hk : k ∈ wm.public_keys
        · rw [if_neg (by simp [hk]), if_neg (by simp [hhex]), if_neg (by simp [hsig])]
        · rw [if_pos hk]
    simp only [authenticate_and_add_worker, hauth]

/-- C3 witness: the theorem applied to a concrete safe-mode state with
the key stored, once with an accepting and once with a rejecting
signature oracle. -/
theorem claim_C3_witness :
    (∃ wm2, authenticate_and_add_worker sigAll wmS1 K64 ("ab") ("t") = some ((K64, true), wm2) ∧
      is_worker_registered wm2 K64 = true) ∧
    authenticate_and_add_worker sigNone wmS1 K64 ("ab") ("t") =
      some ((INVALID_WORKER, false), wmS1) := by
  have hinv : InvStatusForAllowed wmS1 := by
    unfold InvStatusForAllowed
    decide
  constructor
  · exact (claim_C3 sigAll wmS1 K64 ("ab") ("t") (by decide) hinv).1 (by decide) (by decide) rfl
  · exact (claim_C3 sigNone wmS1 K64 ("ab") ("t") (by decide) hinv).2 (Or.inr ⟨by decide, rfl⟩)
